import Mathlib

/-!
Verification of the vela session/transfer core: a shallow embedding of the
directory-listing, batch-transfer, batch-delete, recursive-delete, edit
round-trip and tilde-expansion logic of src/connection/sftp.rs,
src/app.rs and src/transfer/queue.rs, with theorems about the ordering,
progress-reporting and error-handling contracts.

Remote and local paths are modelled as their component lists (the root `/`
is `[]`); timestamps as naturals; the I/O of the SFTP server and the local
filesystem as explicit oracles passed to each operation.
-/

namespace Vela

/-- A remote or local filesystem path, modelled as its list of components
below the root; the root `/` is `[]`. -/
abbrev RPath := List String

/-- Rust `Path::parent`: `none` at the root, otherwise the path without its
last component. -/
def parentPath : RPath → Option RPath
  | [] => none
  | ps => some ps.dropLast

/-- One directory child on either side (struct FileEntry, src/app.rs).
Modification times are abstracted to naturals. -/
structure FileEntry where
  name : String
  size : Option Nat
  modified : Option Nat
  is_dir : Bool
  permissions : Option String
  deriving Repr, DecidableEq

/-- The synthetic parent entry pushed at the head of listings by
SftpConnection::list_dir and PanelState::load_local. -/
def dotdotEntry : FileEntry :=
  { name := "..", size := none, modified := none, is_dir := true, permissions := none }

/-- Lexicographic comparison of character lists, the shallow embedding of
Rust `String::cmp` read as `≤` (UTF-8 byte order coincides with codepoint
order, so comparing characters is faithful). -/
def charListLe : List Char → List Char → Bool
  | [], _ => true
  | _ :: _, [] => false
  | a :: as, b :: bs =>
    if a < b then true
    else if b < a then false
    else charListLe as bs

/-- Case-sensitive lexicographic name order. -/
def nameLe (a b : String) : Bool := charListLe a.data b.data

/-- The comparator of both listing sorts, the Rust
`b.is_dir.cmp(&a.is_dir).then(a.name.cmp(&b.name))` read as a `≤` relation:
directories strictly before files, ties broken by case-sensitive
lexicographic name order. -/
def entryLE (a b : FileEntry) : Prop :=
  (a.is_dir = true ∧ b.is_dir = false) ∨ (a.is_dir = b.is_dir ∧ nameLe a.name b.name = true)

instance : DecidableRel entryLE := fun a b => by
  unfold entryLE
  infer_instance

theorem charListLe_total : ∀ as bs : List Char, charListLe as bs = true ∨ charListLe bs as = true
  | [], _ => Or.inl rfl
  | _ :: _, [] => Or.inr rfl
  | a :: as, b :: bs => by
    by_cases hab : a < b
    · left
      simp [charListLe, hab]
    · by_cases hba : b < a
      · right
        simp [charListLe, hba]
      · rcases charListLe_total as bs with h | h
        · left
          simp [charListLe, hab, hba, h]
        · right
          simp [charListLe, hab, hba, h]

theorem charListLe_trans : ∀ as bs cs : List Char,
    charListLe as bs = true → charListLe bs cs = true → charListLe as cs = true
  | [], _, _, _, _ => rfl
  | _ :: _, [], _, h, _ => by simp [charListLe] at h
  | _ :: _, _ :: _, [], _, h => by simp [charListLe] at h
  | a :: as, b :: bs, c :: cs, h1, h2 => by
    simp only [charListLe] at h1 h2 ⊢
    rcases lt_trichotomy a b with hab | hab | hab
    · rcases lt_trichotomy b c with hbc | hbc | hbc
      · simp [lt_trans hab hbc]
      · subst hbc
        simp [hab]
      · rw [if_neg (lt_asymm hbc), if_pos hbc] at h2
        exact absurd h2 (by simp)
    · subst hab
      rcases lt_trichotomy a c with hac | hac | hac
      · simp [hac]
      · subst hac
        rw [if_neg (lt_irrefl a), if_neg (lt_irrefl a)] at h1 h2 ⊢
        exact charListLe_trans as bs cs h1 h2
      · rw [if_neg (lt_asymm hac), if_pos hac] at h2
        exact absurd h2 (by simp)
    · rw [if_neg (lt_asymm hab), if_pos hab] at h1
      exact absurd h1 (by simp)

instance : IsTotal FileEntry entryLE := by
  constructor
  intro a b
  cases ha : a.is_dir <;> cases hb : b.is_dir
  · rcases charListLe_total a.name.data b.name.data with h | h
    · exact Or.inl (Or.inr ⟨by rw [ha, hb], h⟩)
    · exact Or.inr (Or.inr ⟨by rw [ha, hb], h⟩)
  · exact Or.inr (Or.inl ⟨hb, ha⟩)
  · exact Or.inl (Or.inl ⟨ha, hb⟩)
  · rcases charListLe_total a.name.data b.name.data with h | h
    · exact Or.inl (Or.inr ⟨by rw [ha, hb], h⟩)
    · exact Or.inr (Or.inr ⟨by rw [ha, hb], h⟩)

instance : IsTrans FileEntry entryLE := by
  constructor
  intro a b c hab hbc
  rcases hab with ⟨haT, hbF⟩ | ⟨hEq, hN⟩
  · rcases hbc with ⟨hbT, _⟩ | ⟨hEq2, _⟩
    · rw [hbF] at hbT
      exact absurd hbT (by simp)
    · exact Or.inl ⟨haT, hEq2 ▸ hbF⟩
  · rcases hbc with ⟨hbT, hcF⟩ | ⟨hEq2, hN2⟩
    · exact Or.inl ⟨hEq.trans hbT, hcF⟩
    · exact Or.inr ⟨hEq.trans hEq2, charListLe_trans _ _ _ hN hN2⟩

/-- The `Vec::sort_by` call shared by SftpConnection::list_dir and
PanelState::load_local, as a stable sort by the listing comparator. -/
def sortEntries (l : List FileEntry) : List FileEntry :=
  List.insertionSort entryLE l

/-- SftpConnection::list_dir, the pure listing shape: push `".."` unless the
current remote path is the root `/`, then append the raw readdir entries
sorted directories-first, then by name. -/
def list_dir (remote_path : RPath) (raw : List FileEntry) : List FileEntry :=
  (if remote_path = ([] : RPath) then [] else [dotdotEntry]) ++ sortEntries raw

/-- PanelState::load_local, the listing shape: push `".."` when the panel
path has a parent, then the sorted entries. -/
def load_local_entries (path : RPath) (raw : List FileEntry) : List FileEntry :=
  (if (parentPath path).isSome then [dotdotEntry] else []) ++ sortEntries raw

theorem parentPath_isSome (p : RPath) : (parentPath p).isSome ↔ p ≠ [] := by
  cases p <;> simp [parentPath]

theorem entryLE_grouping {a b : FileEntry} (h : entryLE a b) :
    (b.is_dir = true → a.is_dir = true) ∧ (a.is_dir = b.is_dir → nameLe a.name b.name = true) := by
  rcases h with ⟨haT, hbF⟩ | ⟨hEq, hN⟩
  · constructor
    · intro hb
      rw [hb] at hbF
      exact absurd hbF (by simp)
    · intro hEq2
      rw [haT, hbF] at hEq2
      exact absurd hEq2 (by simp)
  · exact ⟨fun hb => hEq.trans hb, fun _ => hN⟩

/-- C2: every listing produced for a panel (remote `list_dir` and local
load) carries the synthetic `".."` entry exactly when the listed path has a
parent (is not the root), followed by the raw entries reordered so that all
directories precede all files and each group is in case-sensitive
lexicographic name order; on the entries `b.txt`, `A` (a directory),
`a.txt`, the resulting order is `[".." , "A", "a.txt", "b.txt"]`. -/
theorem listing_order :
    (∀ (p : RPath) (raw : List FileEntry),
      list_dir p raw
          = (if (parentPath p).isSome then [dotdotEntry] else []) ++ sortEntries raw
        ∧ load_local_entries p raw
          = (if (parentPath p).isSome then [dotdotEntry] else []) ++ sortEntries raw) ∧
    (∀ raw : List FileEntry, (sortEntries raw).Perm raw) ∧
    (∀ raw : List FileEntry,
      (sortEntries raw).Pairwise (fun a b =>
        (b.is_dir = true → a.is_dir = true) ∧
        (a.is_dir = b.is_dir → nameLe a.name b.name = true))) ∧
    list_dir ["home"]
        [⟨"b.txt", some 3, none, false, none⟩, ⟨"A", none, none, true, none⟩,
         ⟨"a.txt", some 5, none, false, none⟩]
      = [dotdotEntry, ⟨"A", none, none, true, none⟩, ⟨"a.txt", some 5, none, false, none⟩,
         ⟨"b.txt", some 3, none, false, none⟩] := by
  refine ⟨fun p raw => ⟨?_, rfl⟩, fun raw => List.perm_insertionSort entryLE raw,
    fun raw => ?_, by decide⟩
  · cases p <;> simp [list_dir, parentPath]
  · have hs : (sortEntries raw).Sorted entryLE := List.sorted_insertionSort entryLE raw
    exact List.Pairwise.imp (fun h => entryLE_grouping h) hs

/-- The mutable part of SftpConnection that navigation touches: the current
remote working directory. -/
structure ConnState where
  remote_path : RPath
  deriving Repr, DecidableEq

/-- SftpConnection::list_dir including the readdir call, whose outcome is
supplied by the oracle `rd`; a readdir failure surfaces as a path error. -/
def list_dir_conn (rd : RPath → Except String (List FileEntry)) (st : ConnState) :
    Except String (List FileEntry) :=
  match rd st.remote_path with
  | .error e => .error e
  | .ok raw => .ok (list_dir st.remote_path raw)

/-- SftpConnection::enter_dir: compute the new path (`".."` moves to the
parent, kept unchanged at the root; any other name is joined), assign it to
the connection state, then list the new directory. -/
def enter_dir (rd : RPath → Except String (List FileEntry)) (st : ConnState)
    (name : String) : ConnState × Except String (List FileEntry) :=
  let new_path :=
    if name = ".." then (parentPath st.remote_path).getD st.remote_path
    else st.remote_path ++ [name]
  let st2 : ConnState := { remote_path := new_path }
  (st2, list_dir_conn rd st2)

/-- C10: enter_dir updates current_remote_path before the listing — to the
parent of the old path for `".."` (unchanged when the old path has no
parent), otherwise to the old path joined with the name — the listing is
taken at the updated path, and the update persists even when the listing
fails with a path error. -/
theorem enter_dir_updates_path_first :
    ∀ (rd : RPath → Except String (List FileEntry)) (st : ConnState) (name : String),
      ((enter_dir rd st name).1.remote_path
          = if name = ".." then (parentPath st.remote_path).getD st.remote_path
            else st.remote_path ++ [name]) ∧
      (enter_dir rd st name).2 = list_dir_conn rd (enter_dir rd st name).1 ∧
      (∀ e, (enter_dir rd st name).2 = .error e →
        (enter_dir rd st name).1.remote_path
          = if name = ".." then (parentPath st.remote_path).getD st.remote_path
            else st.remote_path ++ [name]) := by
  intro rd st name
  exact ⟨rfl, rfl, fun _ _ => rfl⟩

/-- TransferState (src/transfer/queue.rs). -/
inductive TransferState
  | Running
  | Done
  | Failed (msg : String)
  deriving Repr, DecidableEq

/-- TransferProgress (src/transfer/queue.rs): the shared progress record,
written by the transfer worker and read by the render loop. -/
structure TransferProgress where
  state : TransferState
  current_file : String
  bytes_done : Nat
  bytes_total : Nat
  files_done : Nat
  files_total : Nat
  deriving Repr, DecidableEq

/-- TransferProgress::new. -/
def TransferProgress.new (files_total : Nat) : TransferProgress :=
  { state := .Running, current_file := "", bytes_done := 0, bytes_total := 0,
    files_done := 0, files_total := files_total }

/-- Abstract outcome of transferring one batch entry: the file/directory
I/O of upload_file and upload_dir_recursive (or the download mirror) is
summarised by the number of files fully transferred by this entry — each
completed file increments files_done by one — and, on failure, the error
message; `fail k msg` means the entry's transfer raised an I/O error after
`k` of its files had been fully transferred. -/
inductive EntryOutcome
  | ok (files : Nat)
  | fail (filesBefore : Nat) (msg : String)
  deriving Repr, DecidableEq

/-- Whether a transfer state is Failed. -/
def isFailed : TransferState → Bool
  | .Failed _ => true
  | _ => false

/-- The entry loop shared by upload_batch and download_batch
(src/connection/sftp.rs): each iteration first checks whether the shared
state already carries `Failed` and returns early if so, then transfers the
entry, propagating its error. Returns the updated progress record, the
names of the entries whose transfer was started, and the error of the
failing entry if any. -/
def run_entries : List (String × EntryOutcome) → TransferProgress →
    TransferProgress × List String × Option String
  | [], p => (p, [], none)
  | (name, o) :: rest, p =>
    if isFailed p.state then (p, [], none)
    else
      match o with
      | .ok n =>
        let r := run_entries rest { p with files_done := p.files_done + n }
        (r.1, name :: r.2.1, r.2.2)
      | .fail k msg =>
        ({ p with files_done := p.files_done + k }, [name], some msg)

/-- The final state transition both workers perform exactly once, after the
entry loop: on Ok set `Done` only if the state is still `Running`; on Err
set `Failed` with the error message. -/
def finalize_state (err : Option String) (p : TransferProgress) : TransferProgress :=
  match err with
  | none =>
    match p.state with
    | .Running => { p with state := .Done }
    | _ => p
  | some msg => { p with state := .Failed msg }

/-- upload_batch (src/connection/sftp.rs): connect (a connect/auth failure
is abstracted by `connectErr`), run the entries in the caller-supplied
order, then apply the final state transition. Returns the final progress
record and the names of the attempted entries. -/
def upload_batch (connectErr : Option String) (entries : List (String × EntryOutcome))
    (p0 : TransferProgress) : TransferProgress × List String :=
  match connectErr with
  | some e => (finalize_state (some e) p0, [])
  | none =>
    let r := run_entries entries p0
    (finalize_state r.2.2 r.1, r.2.1)

theorem run_entries_ok_pre : ∀ (pre : List (String × Nat)) (name : String) (k : Nat)
    (msg : String) (post : List (String × EntryOutcome)) (p0 : TransferProgress),
    p0.state = .Running →
    run_entries (pre.map (fun q => (q.1, EntryOutcome.ok q.2))
        ++ (name, EntryOutcome.fail k msg) :: post) p0
      = ({ p0 with files_done := p0.files_done + (pre.map Prod.snd).sum + k },
         pre.map Prod.fst ++ [name], some msg)
  | [], name, k, msg, post, p0, h0 => by
    simp [run_entries, isFailed, h0]
  | (n0, c0) :: pre, name, k, msg, post, p0, h0 => by
    obtain ⟨s, cf, bd, bt, fd, ft⟩ := p0
    cases h0
    have ih := run_entries_ok_pre pre name k msg post
      ⟨.Running, cf, bd, bt, fd + c0, ft⟩ rfl
    simp [run_entries, isFailed, ih, Nat.add_assoc]

/-- C1: in an upload batch whose entries before some failing entry all
transfer successfully, the worker ends with the shared state `Failed` and
the failing entry's message, the entries after the failing one are never
attempted, and every file fully transferred before the failure stays
counted in files_done; in particular a three-entry batch whose second entry
fails ends with exactly the first entry's files counted and the third entry
unattempted. -/
theorem upload_abort_on_failure (pre : List (String × Nat)) (name : String) (k : Nat)
    (msg : String) (post : List (String × EntryOutcome)) (p0 : TransferProgress)
    (h0 : p0.state = .Running) :
    (upload_batch none (pre.map (fun q => (q.1, EntryOutcome.ok q.2))
        ++ (name, EntryOutcome.fail k msg) :: post) p0).1.state = .Failed msg ∧
    (upload_batch none (pre.map (fun q => (q.1, EntryOutcome.ok q.2))
        ++ (name, EntryOutcome.fail k msg) :: post) p0).1.files_done
      = p0.files_done + (pre.map Prod.snd).sum + k ∧
    (upload_batch none (pre.map (fun q => (q.1, EntryOutcome.ok q.2))
        ++ (name, EntryOutcome.fail k msg) :: post) p0).2
      = pre.map Prod.fst ++ [name] := by
  unfold upload_batch
  rw [run_entries_ok_pre pre name k msg post p0 h0]
  exact ⟨rfl, rfl, rfl⟩

/-- C1 witness: the three-entry batch of the spec's abort-on-failure test:
the second entry fails, exactly one file is transferred, the state is
Failed, the third entry is never attempted. -/
theorem upload_abort_on_failure_witness :
    (upload_batch none [("e1", .ok 1), ("e2", .fail 0 "io error"), ("e3", .ok 1)]
        (TransferProgress.new 3)).1.state = .Failed "io error" ∧
    (upload_batch none [("e1", .ok 1), ("e2", .fail 0 "io error"), ("e3", .ok 1)]
        (TransferProgress.new 3)).1.files_done = 1 ∧
    (upload_batch none [("e1", .ok 1), ("e2", .fail 0 "io error"), ("e3", .ok 1)]
        (TransferProgress.new 3)).2 = ["e1", "e2"] := by
  have h := upload_abort_on_failure [("e1", 1)] "e2" 0 "io error" [("e3", EntryOutcome.ok 1)]
    (TransferProgress.new 3) rfl
  simpa [TransferProgress.new] using h

/-- A remote file tree: a regular file (with its size) or a directory with
its named children in readdir order. -/
inductive RTree
  | file (size : Nat)
  | dir (children : List (String × RTree))
  deriving Repr

/-- Which remote stat and readdir calls succeed; count_sftp_files swallows
either failure, counting 0. -/
structure RemoteOracle where
  stat_ok : RPath → Bool
  readdir_ok : RPath → Bool

/-- The oracle on which every remote stat and readdir succeeds. -/
def allOk : RemoteOracle := ⟨fun _ => true, fun _ => true⟩

mutual
/-- count_sftp_files (src/connection/sftp.rs): a failed stat counts 0, a
non-directory counts 1, a failed readdir counts 0, and a directory counts
the sum over its readdir children. -/
def count_sftp_files (o : RemoteOracle) (path : RPath) : RTree → Nat
  | .file _ => if o.stat_ok path then 1 else 0
  | .dir cs =>
    if o.stat_ok path then (if o.readdir_ok path then count_children o path cs else 0) else 0

/-- The sum over readdir children inside count_sftp_files. -/
def count_children (o : RemoteOracle) (path : RPath) : List (String × RTree) → Nat
  | [] => 0
  | (n, c) :: rest => count_sftp_files o (path ++ [n]) c + count_children o path rest
end

mutual
/-- The true recursive number of regular files in a tree. -/
def tree_file_count : RTree → Nat
  | .file _ => 1
  | .dir cs => trees_file_count cs

/-- The true recursive number of regular files under a list of children. -/
def trees_file_count : List (String × RTree) → Nat
  | [] => 0
  | (_, c) :: rest => tree_file_count c + trees_file_count rest
end

/-- The upfront denominator computed by download_batch: the recursive count
of each requested entry, summed over the batch and clamped by `.max(1)`. -/
def download_total (o : RemoteOracle) (remote_dir : RPath)
    (entries : List (String × RTree)) : Nat :=
  Nat.max ((entries.map (fun e => count_sftp_files o (remote_dir ++ [e.1]) e.2)).sum) 1

/-- download_batch (src/connection/sftp.rs): after connecting (a
connect/auth failure is abstracted by `connectErr`), write the clamped
upfront count into files_total, then run the entries — each carries its
remote subtree, used for counting, and its abstracted transfer outcome —
and apply the final state transition. -/
def download_batch (o : RemoteOracle) (remote_dir : RPath) (connectErr : Option String)
    (entries : List (String × RTree × EntryOutcome)) (p0 : TransferProgress) :
    TransferProgress × List String :=
  match connectErr with
  | some e => (finalize_state (some e) p0, [])
  | none =>
    let p1 := { p0 with
      files_total := download_total o remote_dir (entries.map (fun e => (e.1, e.2.1))) }
    let r := run_entries (entries.map (fun e => (e.1, e.2.2))) p1
    (finalize_state r.2.2 r.1, r.2.1)

theorem download_batch_shape (o : RemoteOracle) (rd : RPath)
    (es : List (String × RTree × EntryOutcome)) (p0 : TransferProgress) :
    (download_batch o rd none es p0).1
      = finalize_state
          ((run_entries (es.map (fun e => (e.1, e.2.2)))
            { p0 with files_total := download_total o rd (es.map (fun e => (e.1, e.2.1))) }).2.2)
          ((run_entries (es.map (fun e => (e.1, e.2.2)))
            { p0 with files_total := download_total o rd (es.map (fun e => (e.1, e.2.1))) }).1) := rfl

theorem run_entries_state : ∀ (es : List (String × EntryOutcome)) (p : TransferProgress),
    (run_entries es p).1.state = p.state
  | [], _ => rfl
  | (name, o) :: rest, p => by
    by_cases h : isFailed p.state
    · simp [run_entries, h]
    · cases o with
      | ok n =>
        simpa [run_entries, h] using
          run_entries_state rest { p with files_done := p.files_done + n }
      | fail k msg => simp [run_entries, h]

theorem run_entries_files_total : ∀ (es : List (String × EntryOutcome)) (p : TransferProgress),
    (run_entries es p).1.files_total = p.files_total
  | [], _ => rfl
  | (name, o) :: rest, p => by
    by_cases h : isFailed p.state
    · simp [run_entries, h]
    · cases o with
      | ok n =>
        simpa [run_entries, h] using
          run_entries_files_total rest { p with files_done := p.files_done + n }
      | fail k msg => simp [run_entries, h]

theorem finalize_state_files_total (err : Option String) (p : TransferProgress) :
    (finalize_state err p).files_total = p.files_total := by
  cases err with
  | none =>
    rcases hp : p.state <;> simp [finalize_state, hp]
  | some m => rfl

/-- C7: the terminal transition is write-once for both workers: a late Ok
result never downgrades an already-Failed state (the final transition is a
no-op there, in particular it never writes Done over Failed); the entry
loop never writes the state field at all; and each worker's progress
output is a single final transition applied to a record whose state is
still the initial one — the state is written at most once, last. -/
theorem terminal_states_write_once :
    (∀ (p : TransferProgress) (m : String),
      finalize_state none { p with state := .Failed m } = { p with state := .Failed m }) ∧
    (∀ (p : TransferProgress) (m : String),
      (finalize_state none { p with state := .Failed m }).state ≠ .Done) ∧
    (∀ (es : List (String × EntryOutcome)) (p : TransferProgress),
      (run_entries es p).1.state = p.state) ∧
    (∀ (ce : Option String) (es : List (String × EntryOutcome)) (p0 : TransferProgress),
      ∃ err q, q.state = p0.state ∧ (upload_batch ce es p0).1 = finalize_state err q) ∧
    (∀ (o : RemoteOracle) (rd : RPath) (ce : Option String)
        (es : List (String × RTree × EntryOutcome)) (p0 : TransferProgress),
      ∃ err q, q.state = p0.state ∧ (download_batch o rd ce es p0).1 = finalize_state err q) := by
  refine ⟨fun p m => rfl, fun p m => by simp [finalize_state], run_entries_state, ?_, ?_⟩
  · intro ce es p0
    cases ce with
    | some e => exact ⟨some e, p0, rfl, rfl⟩
    | none =>
      exact ⟨(run_entries es p0).2.2, (run_entries es p0).1, run_entries_state es p0, rfl⟩
  · intro o rd ce es p0
    cases ce with
    | some e => exact ⟨some e, p0, rfl, rfl⟩
    | none =>
      refine ⟨_, _, ?_, download_batch_shape o rd es p0⟩
      simpa using run_entries_state (es.map (fun e => (e.1, e.2.2)))
        { p0 with files_total := download_total o rd (es.map (fun e => (e.1, e.2.1))) }

mutual
theorem count_allOk_eq (path : RPath) : ∀ t : RTree,
    count_sftp_files allOk path t = tree_file_count t
  | .file _ => rfl
  | .dir cs => by
    simp only [count_sftp_files, tree_file_count]
    rw [if_pos (show allOk.stat_ok path = true from rfl),
      if_pos (show allOk.readdir_ok path = true from rfl),
      count_children_allOk_eq path cs]

theorem count_children_allOk_eq (path : RPath) : ∀ cs : List (String × RTree),
    count_children allOk path cs = trees_file_count cs
  | [] => rfl
  | (n, c) :: rest => by
    simp [count_children, trees_file_count, count_allOk_eq (path ++ [n]) c,
      count_children_allOk_eq path rest]
end

/-- C3 counterexample: for a download batch whose single requested entry is
an empty directory, the worker writes files_total 1 (the count is clamped
by `.max(1)`) while the true recursive file count of the requested entries
is 0: the written total differs from the true count. -/
theorem download_total_counterexample :
    (download_batch allOk [] none [("d", RTree.dir [], EntryOutcome.ok 0)]
        (TransferProgress.new 1)).1.files_total = 1 ∧
    tree_file_count (RTree.dir []) = 0 ∧ (1 : Nat) ≠ 0 := by
  exact ⟨rfl, rfl, by decide⟩

/-- C3 amended: after opening the session and before transferring, the
download worker writes into files_total the recursive file count of the
requested entries clamped below by one (`.max(1)`); neither the entry loop
nor the final transition writes files_total again, so every later read
observes that clamped value, which equals the true count whenever the
batch contains at least one file. -/
theorem download_files_total_clamped :
    (∀ (path : RPath) (t : RTree), count_sftp_files allOk path t = tree_file_count t) ∧
    (∀ (remote_dir : RPath) (entries : List (String × RTree × EntryOutcome))
        (p0 : TransferProgress),
      (download_batch allOk remote_dir none entries p0).1.files_total
        = Nat.max ((entries.map (fun e => tree_file_count e.2.1)).sum) 1) := by
  refine ⟨fun path t => count_allOk_eq path t, ?_⟩
  intro rd entries p0
  rw [download_batch_shape allOk rd entries p0, finalize_state_files_total,
    run_entries_files_total]
  simp [download_total, count_allOk_eq, Function.comp_def]

/-- One observable action of the remote delete batch. -/
inductive DeleteEvent
  | del (name : String)
  | refresh
  deriving Repr, DecidableEq

/-- One iteration of the App::confirm_delete loop: attempt the deletion
(the oracle yields `none` on success, `some msg` on failure), count a
success or replace the retained error with this entry's formatted message,
and record the attempt. -/
def delete_step (outcome : String → Bool → Option String)
    (acc : Nat × Option String × List DeleteEvent) :
    String × Bool → Nat × Option String × List DeleteEvent
  | (name, d) =>
    match outcome name d with
    | none => (acc.1 + 1, acc.2.1, acc.2.2 ++ [DeleteEvent.del name])
    | some m => (acc.1, some s!"'{name}': {m}", acc.2.2 ++ [DeleteEvent.del name])

/-- App::confirm_delete, remote branch (src/app.rs): run the deletion loop
over all entries in order, then refresh the remote listing exactly once.
Returns the success count, the retained (last) error, and the event
trace. -/
def confirm_delete_remote (outcome : String → Bool → Option String)
    (entries : List (String × Bool)) : Nat × Option String × List DeleteEvent :=
  let r := entries.foldl (delete_step outcome) (0, none, [])
  (r.1, r.2.1, r.2.2 ++ [DeleteEvent.refresh])

/-- The status line App::confirm_delete formats from the success count and
the retained error. -/
def delete_status (total deleted : Nat) (first_name : String)
    (last_error : Option String) : String :=
  match last_error with
  | some err => s!"{deleted}/{total} gelöscht — Fehler: {err}"
  | none =>
    if total = 1 then s!"'{first_name}' gelöscht"
    else s!"{deleted} Einträge gelöscht"

/-- The formatted message of the last failing entry, if any (the value the
claim's "only the last error message" denotes). -/
def lastDeleteError (outcome : String → Bool → Option String) :
    List (String × Bool) → Option String
  | [] => none
  | (name, d) :: rest =>
    match lastDeleteError outcome rest with
    | some m => some m
    | none => (outcome name d).map (fun m => s!"'{name}': {m}")

theorem delete_foldl (outcome : String → Bool → Option String) :
    ∀ (entries : List (String × Bool)) (acc : Nat × Option String × List DeleteEvent),
    entries.foldl (delete_step outcome) acc
      = (acc.1 + entries.countP (fun e => (outcome e.1 e.2).isNone),
         Option.or (lastDeleteError outcome entries) acc.2.1,
         acc.2.2 ++ entries.map (fun e => DeleteEvent.del e.1))
  | [], acc => by simp [lastDeleteError, Option.or]
  | (name, d) :: rest, acc => by
    rw [List.foldl_cons, delete_foldl outcome rest]
    cases h : outcome name d with
    | none =>
      cases hrest : lastDeleteError outcome rest <;>
        simp [delete_step, h, lastDeleteError, hrest, List.countP_cons, Option.or,
          Nat.add_comm, Nat.add_assoc, Nat.add_left_comm]
    | some m =>
      cases hrest : lastDeleteError outcome rest <;>
        simp [delete_step, h, lastDeleteError, hrest, List.countP_cons, Option.or]

/-- C4: a batch delete attempts every entry in order regardless of earlier
failures, reports the count of successful deletions together with only the
last error message, and refreshes the remote listing exactly once, after
all deletions; on the three-entry batch whose second deletion fails, all
three are attempted and the summary is `2/3` with the second entry's
error. -/
theorem delete_batch_best_effort :
    (∀ (outcome : String → Bool → Option String) (entries : List (String × Bool)),
      (confirm_delete_remote outcome entries).2.2
          = entries.map (fun e => DeleteEvent.del e.1) ++ [DeleteEvent.refresh]
        ∧ (confirm_delete_remote outcome entries).1
          = entries.countP (fun e => (outcome e.1 e.2).isNone)
        ∧ (confirm_delete_remote outcome entries).2.1 = lastDeleteError outcome entries) ∧
    (confirm_delete_remote (fun n _ => if n = "b" then some "io error" else none)
        [("a", false), ("b", false), ("c", true)]).1 = 2 ∧
    (confirm_delete_remote (fun n _ => if n = "b" then some "io error" else none)
        [("a", false), ("b", false), ("c", true)]).2.2
      = [DeleteEvent.del "a", DeleteEvent.del "b", DeleteEvent.del "c",
         DeleteEvent.refresh] ∧
    (confirm_delete_remote (fun n _ => if n = "b" then some "io error" else none)
        [("a", false), ("b", false), ("c", true)]).2.1 = some "'b': io error" ∧
    delete_status 3 2 "a" (some "'b': io error")
      = "2/3 gelöscht — Fehler: 'b': io error" := by
  refine ⟨?_, by decide, by decide, by decide, by decide⟩
  intro outcome entries
  unfold confirm_delete_remote
  rw [delete_foldl outcome entries (0, none, [])]
  cases hl : lastDeleteError outcome entries <;> simp [Option.or, hl]

/-- What App::finish_edit sees for an EditRequest::Remote record: the
scratch file's current modification time (`none` when the metadata read
fails), the time captured before the editor ran, whether a live session
still exists (it supplies the profile and password for the fresh upload
session), and the abstract result of upload_file_fresh. -/
structure RemoteEditEnv where
  file_name : String
  mtime_now : Option Nat
  mtime_before : Nat
  has_conn : Bool
  upload_err : Option String
  deriving Repr, DecidableEq

/-- The observable outcome of finish_edit on a RemoteEdit record. -/
structure RemoteEditOutcome where
  uploaded : Bool
  refreshed : Bool
  scratch_deleted : Bool
  status : Option String
  deriving Repr, DecidableEq

/-- The `changed` test of finish_edit: modification time strictly newer
than the captured one; a failed metadata read counts as unchanged. -/
def mtime_newer (env : RemoteEditEnv) : Bool :=
  match env.mtime_now with
  | some t => decide (env.mtime_before < t)
  | none => false

/-- The status line of the upload branch of finish_edit. -/
def upload_status_msg (name : String) : Option String → String
  | none => s!"'{name}' hochgeladen"
  | some e => s!"Upload fehlgeschlagen: {e}"

/-- App::finish_edit, EditRequest::Remote arm (src/app.rs): when the
scratch file changed and a session exists, upload it over a fresh session
to the original remote path and refresh the remote listing (whether or not
the upload succeeded); when changed but no session exists, or unchanged,
do neither; in every branch delete the scratch file. -/
def finish_edit_remote (env : RemoteEditEnv) : RemoteEditOutcome :=
  if mtime_newer env then
    if env.has_conn then
      { uploaded := true, refreshed := true, scratch_deleted := true,
        status := some (upload_status_msg env.file_name env.upload_err) }
    else
      { uploaded := false, refreshed := false, scratch_deleted := true, status := none }
  else
    { uploaded := false, refreshed := false, scratch_deleted := true,
      status := some "Keine Änderungen, kein Upload" }

/-- A RemoteEdit record whose scratch file is strictly newer than the
captured time but for which no live session exists any more. -/
def editEnvNoConn : RemoteEditEnv :=
  { file_name := "f", mtime_now := some 1, mtime_before := 0,
    has_conn := false, upload_err := none }

/-- C5 counterexample: on a RemoteEdit record whose scratch file is
strictly newer than the captured time but for which no live session
exists, no upload occurs, refuting "uploads if and only if the
modification time is strictly newer" (the scratch file is still
deleted). -/
theorem finish_edit_counterexample :
    mtime_newer editEnvNoConn = true ∧
    (finish_edit_remote editEnvNoConn).uploaded = false ∧
    (finish_edit_remote editEnvNoConn).scratch_deleted = true := by
  decide

/-- C5 amended: finish_edit uploads the scratch file to the original
remote path over a fresh session iff its modification time is strictly
newer than the captured value AND a live session still exists; the remote
listing refresh happens in exactly the same case (so never when the time
is unchanged); and the scratch file is deleted afterward in every
branch. -/
theorem finish_edit_remote_behavior :
    ∀ env : RemoteEditEnv,
      (finish_edit_remote env).uploaded = (mtime_newer env && env.has_conn) ∧
      (finish_edit_remote env).refreshed = (mtime_newer env && env.has_conn) ∧
      (finish_edit_remote env).scratch_deleted = true := by
  intro env
  unfold finish_edit_remote
  cases h : mtime_newer env <;> cases hc : env.has_conn <;> simp [h, hc]

/-- One removal performed by the recursive delete. -/
inductive FsOp
  | unlink (p : RPath)
  | rmdir (p : RPath)
  deriving Repr, DecidableEq

/-- Which remote readdir, unlink and rmdir calls fail during a recursive
delete, and with what message. -/
structure DeleteOracle where
  readdir_err : RPath → Option String
  unlink_err : RPath → Option String
  rmdir_err : RPath → Option String

mutual
/-- SftpConnection::rmdir_recursive (src/connection/sftp.rs): readdir the
path, walk the children in readdir order — recursing into subdirectories,
unlinking files — then rmdir the now-empty directory itself; the first
failing call aborts the walk at that point and propagates its message.
Returns the removals actually performed, in order, and the result.
Invoking it on a regular file fails at the readdir, as the server would. -/
def rmdir_recursive (o : DeleteOracle) (path : RPath) : RTree → List FsOp × Except String Unit
  | .file _ => ([], .error "not a directory")
  | .dir cs =>
    match o.readdir_err path with
    | some e => ([], .error e)
    | none =>
      match rmdir_children o path cs with
      | (ops, .error e) => (ops, .error e)
      | (ops, .ok _) =>
        match o.rmdir_err path with
        | some e => (ops, .error e)
        | none => (ops ++ [.rmdir path], .ok ())

/-- The child loop of rmdir_recursive. -/
def rmdir_children (o : DeleteOracle) (path : RPath) :
    List (String × RTree) → List FsOp × Except String Unit
  | [] => ([], .ok ())
  | (name, c) :: rest =>
    match c with
    | .file _ =>
      match o.unlink_err (path ++ [name]) with
      | some e => ([], .error e)
      | none =>
        match rmdir_children o path rest with
        | (ops, r) => (.unlink (path ++ [name]) :: ops, r)
    | .dir _ =>
      match rmdir_recursive o (path ++ [name]) c with
      | (ops, .error e) => (ops, .error e)
      | (ops, .ok _) =>
        match rmdir_children o path rest with
        | (ops2, r) => (ops ++ ops2, r)
end

mutual
/-- The full depth-first removal sequence of a tree: the children first,
in readdir order — a file is one unlink, a directory contributes its own
full sequence — and the directory's own rmdir last. -/
def delete_postorder (path : RPath) : RTree → List FsOp
  | .file _ => [.unlink path]
  | .dir cs => children_postorder path cs ++ [.rmdir path]

/-- The removal sequence of a list of children. -/
def children_postorder (path : RPath) : List (String × RTree) → List FsOp
  | [] => []
  | (name, c) :: rest =>
    delete_postorder (path ++ [name]) c ++ children_postorder path rest
end

/-- Extending a prefix on the left by a common block. -/
theorem prefix_append_left {α : Type} {l m : List α} (pre : List α) (h : l <+: m) :
    pre ++ l <+: pre ++ m := by
  obtain ⟨t, ht⟩ := h
  exact ⟨t, by rw [List.append_assoc, ht]⟩

mutual
theorem rmdir_recursive_spec (o : DeleteOracle) (path : RPath) : ∀ t : RTree,
    (rmdir_recursive o path t).1 <+: delete_postorder path t ∧
    ((rmdir_recursive o path t).2 = Except.ok () ↔
      (rmdir_recursive o path t).1 = delete_postorder path t)
  | .file _ => by
    simp [rmdir_recursive, delete_postorder]
  | .dir cs => by
    have hch := rmdir_children_spec o path cs
    simp only [rmdir_recursive, delete_postorder]
    cases h1 : o.readdir_err path with
    | some e => simp
    | none =>
      rcases hc : rmdir_children o path cs with ⟨ops, r⟩
      rw [hc] at hch
      rcases hch with ⟨hpre, hiff⟩
      dsimp only at hpre hiff ⊢
      cases r with
      | error e =>
        dsimp only
        refine ⟨hpre.trans (List.prefix_append _ _), ?_, ?_⟩
        · intro hx
          exact absurd hx (by simp)
        · intro hx
          exfalso
          have hle := hpre.length_le
          have hxlen := congrArg List.length hx
          simp [List.length_append] at hxlen
          omega
      | ok u =>
        cases u
        have hops : ops = children_postorder path cs := hiff.mp rfl
        subst hops
        cases h2 : o.rmdir_err path with
        | some e =>
          dsimp only
          refine ⟨List.prefix_append _ _, ?_, ?_⟩
          · intro hx
            exact absurd hx (by simp)
          · intro hx
            exfalso
            have hxlen := congrArg List.length hx
            simp [List.length_append] at hxlen
        | none =>
          dsimp only
          simp

theorem rmdir_children_spec (o : DeleteOracle) (path : RPath) : ∀ cs : List (String × RTree),
    (rmdir_children o path cs).1 <+: children_postorder path cs ∧
    ((rmdir_children o path cs).2 = Except.ok () ↔
      (rmdir_children o path cs).1 = children_postorder path cs)
  | [] => by simp [rmdir_children, children_postorder]
  | (name, .file s) :: rest => by
    have hr := rmdir_children_spec o path rest
    simp only [rmdir_children, children_postorder, delete_postorder]
    cases h1 : o.unlink_err (path ++ [name]) with
    | some e => simp
    | none =>
      rcases hr with ⟨hpre, hiff⟩
      dsimp only
      refine ⟨?_, ?_, ?_⟩
      · exact List.cons_prefix_cons.mpr ⟨rfl, hpre⟩
      · intro hx
        simpa using hiff.mp hx
      · intro hx
        simp at hx
        exact hiff.mpr hx
  | (name, .dir cs2) :: rest => by
    have hd := rmdir_recursive_spec o (path ++ [name]) (.dir cs2)
    have hr := rmdir_children_spec o path rest
    simp only [rmdir_children, children_postorder]
    rcases hc : rmdir_recursive o (path ++ [name]) (.dir cs2) with ⟨ops, r⟩
    rw [hc] at hd
    rcases hd with ⟨hdpre, hdiff⟩
    dsimp only at hdpre hdiff ⊢
    cases r with
    | error e =>
      dsimp only
      refine ⟨hdpre.trans (List.prefix_append _ _), ?_, ?_⟩
      · intro hx
        exact absurd hx (by simp)
      · intro hx
        exfalso
        have hle := hdpre.length_le
        have hxlen := congrArg List.length hx
        simp [List.length_append] at hxlen
        have hcp : children_postorder path rest = [] := by
          have : (children_postorder path rest).length = 0 := by omega
          exact List.length_eq_zero.mp this
        rw [hcp, List.append_nil] at hx
        have hcontr : (Except.error e : Except String Unit) = .ok () := hdiff.mpr hx
        exact absurd hcontr (by simp)
    | ok u =>
      cases u
      have hops : ops = delete_postorder (path ++ [name]) (RTree.dir cs2) := hdiff.mp rfl
      subst hops
      rcases hr with ⟨hrpre, hriff⟩
      dsimp only
      refine ⟨prefix_append_left _ hrpre, ?_, ?_⟩
      · intro hx
        rw [hriff.mp hx]
      · intro hx
        exact hriff.mpr (List.append_cancel_left hx)
end

/-- C6: the recursive directory delete is depth-first: the removals it
performs always form an initial segment of the full depth-first removal
sequence, in which each directory's children (files unlinked,
subdirectories fully recursed, in readdir order) all precede the
directory's own rmdir; the whole sequence is performed exactly when the
call returns Ok, so a failing call stops at the point of the first child
failure — removals already performed stay performed (no rollback) — and
the error propagates in the result. -/
theorem rmdir_recursive_depth_first :
    ∀ (o : DeleteOracle) (path : RPath) (t : RTree),
      (rmdir_recursive o path t).1 <+: delete_postorder path t ∧
      ((rmdir_recursive o path t).2 = Except.ok () ↔
        (rmdir_recursive o path t).1 = delete_postorder path t) ∧
      (∀ cs : List (String × RTree),
        delete_postorder path (RTree.dir cs)
          = children_postorder path cs ++ [FsOp.rmdir path]) := by
  intro o path t
  exact ⟨(rmdir_recursive_spec o path t).1, (rmdir_recursive_spec o path t).2, fun cs => rfl⟩

/-- The outcome of one remote mkdir during a recursive upload: created,
refused because the directory already exists (the ssh2 error code SFTP 4
that upload_dir_recursive swallows), or any other error. -/
inductive MkdirOutcome
  | ok
  | alreadyExists
  | err (msg : String)
  deriving Repr, DecidableEq

/-- Which remote mkdir and file-upload calls succeed during a recursive
upload. -/
structure UploadOracle where
  mkdir_res : RPath → MkdirOutcome
  upload_err : RPath → Option String

mutual
/-- upload_dir_recursive (src/connection/sftp.rs): create the remote
directory remote_parent/name — treating "already exists" as success, like
the source's match on ssh2 error SFTP(4) — then walk the local children in
order, recursing into subdirectories and uploading files; the first
failure aborts and propagates. Returns the local paths of the files
uploaded, in order, and the result. -/
def upload_dir_recursive (o : UploadOracle) (local_parent remote_parent : RPath)
    (name : String) (children : List (String × RTree)) :
    List RPath × Except String Unit :=
  match o.mkdir_res (remote_parent ++ [name]) with
  | .err e => ([], .error e)
  | .ok => upload_children o (local_parent ++ [name]) (remote_parent ++ [name]) children
  | .alreadyExists => upload_children o (local_parent ++ [name]) (remote_parent ++ [name]) children

/-- The child loop of upload_dir_recursive. -/
def upload_children (o : UploadOracle) (local_dir remote_dir : RPath) :
    List (String × RTree) → List RPath × Except String Unit
  | [] => ([], .ok ())
  | (n, c) :: rest =>
    match c with
    | .dir cs =>
      match upload_dir_recursive o local_dir remote_dir n cs with
      | (ups, .error e) => (ups, .error e)
      | (ups, .ok _) =>
        match upload_children o local_dir remote_dir rest with
        | (ups2, r) => (ups ++ ups2, r)
    | .file _ =>
      match o.upload_err (local_dir ++ [n]) with
      | some e => ([], .error e)
      | none =>
        match upload_children o local_dir remote_dir rest with
        | (ups, r) => ((local_dir ++ [n]) :: ups, r)
end

mutual
/-- The local paths of all regular files in a tree rooted at `base`, in
walk order. -/
def tree_files (base : RPath) : RTree → List RPath
  | .file _ => [base]
  | .dir cs => trees_files base cs

/-- The local paths of all regular files under a list of children. -/
def trees_files (base : RPath) : List (String × RTree) → List RPath
  | [] => []
  | (n, c) :: rest => tree_files (base ++ [n]) c ++ trees_files base rest
end

mutual
theorem upload_dir_all_ok (o : UploadOracle)
    (hmk : ∀ p e, o.mkdir_res p ≠ MkdirOutcome.err e)
    (hup : ∀ p, o.upload_err p = none) :
    ∀ (lp rp : RPath) (name : String) (cs : List (String × RTree)),
    upload_dir_recursive o lp rp name cs = (trees_files (lp ++ [name]) cs, .ok ())
  | lp, rp, name, cs => by
    simp only [upload_dir_recursive]
    cases hm : o.mkdir_res (rp ++ [name]) with
    | err e => exact absurd hm (hmk _ e)
    | ok => exact upload_children_all_ok o hmk hup (lp ++ [name]) (rp ++ [name]) cs
    | alreadyExists => exact upload_children_all_ok o hmk hup (lp ++ [name]) (rp ++ [name]) cs

theorem upload_children_all_ok (o : UploadOracle)
    (hmk : ∀ p e, o.mkdir_res p ≠ MkdirOutcome.err e)
    (hup : ∀ p, o.upload_err p = none) :
    ∀ (ld rd : RPath) (l : List (String × RTree)),
    upload_children o ld rd l = (trees_files ld l, .ok ())
  | ld, rd, [] => by simp [upload_children, trees_files]
  | ld, rd, (n, .dir cs) :: rest => by
    simp only [upload_children, trees_files, tree_files]
    rw [upload_dir_all_ok o hmk hup ld rd n cs]
    simp [upload_children_all_ok o hmk hup ld rd rest]
  | ld, rd, (n, .file s) :: rest => by
    simp only [upload_children, trees_files, tree_files]
    rw [hup (ld ++ [n])]
    simp [upload_children_all_ok o hmk hup ld rd rest]
end

/-- C8: creating the remote directory for an uploaded directory entry
treats "already exists" like success: when every mkdir reports
created-or-already-exists and the file uploads succeed, the recursive
upload succeeds and uploads exactly the files of the local tree, in walk
order — in particular a directory whose remote counterpart already exists
does not fail the batch, and all files contained in the local tree are
still uploaded. -/
theorem upload_dir_idempotent_mkdir (o : UploadOracle) (lp rp : RPath) (name : String)
    (cs : List (String × RTree))
    (hmk : ∀ p, o.mkdir_res p = MkdirOutcome.ok ∨ o.mkdir_res p = MkdirOutcome.alreadyExists)
    (hup : ∀ p, o.upload_err p = none) :
    upload_dir_recursive o lp rp name cs = (trees_files (lp ++ [name]) cs, Except.ok ()) := by
  apply upload_dir_all_ok o ?_ hup
  intro p e he
  rcases hmk p with h | h <;> rw [he] at h <;> exact absurd h (by simp)

/-- C8 witness: uploading a two-level directory whose remote counterparts
all report "already exists" succeeds and uploads both contained files. -/
theorem upload_dir_idempotent_mkdir_witness :
    upload_dir_recursive ⟨fun _ => MkdirOutcome.alreadyExists, fun _ => none⟩ [] [] "d"
        [("f1", RTree.file 3), ("sub", RTree.dir [("f2", RTree.file 1)])]
      = ([["d", "f1"], ["d", "sub", "f2"]], Except.ok ()) := by
  have h := upload_dir_idempotent_mkdir ⟨fun _ => MkdirOutcome.alreadyExists, fun _ => none⟩
    [] [] "d" [("f1", RTree.file 3), ("sub", RTree.dir [("f2", RTree.file 1)])]
    (fun p => Or.inr rfl) (fun p => rfl)
  rw [h]
  simp [trees_files, tree_files]

/-- The tilde-expansion step of SftpConnection::change_to_absolute
(src/connection/sftp.rs): `~` becomes the home captured at connect time,
`~/rest` becomes home ++ "/rest" (the slice `&raw[1..]` keeps the slash),
anything else passes through. -/
def remote_expand_tilde (home raw : String) : String :=
  if raw = "~" then home
  else if ("~/".data).isPrefixOf raw.data then home ++ String.mk (raw.data.drop 1)
  else raw

/-- dirs_or_cwd (src/app.rs): the process current working directory,
falling back to the HOME variable and then to "/" — the current directory
comes first, the home directory is only the fallback. -/
def dirs_or_cwd (cur_dir home_env : Option String) : String :=
  match cur_dir with
  | some d => d
  | none => home_env.getD "/"

/-- The local start-path expansion in App::do_connect (src/app.rs): `~`
and `~/rest` expand against dirs_or_cwd (the slice `&trimmed[2..]` drops
tilde and slash; the remainder is path-joined). -/
def local_expand_start (cur_dir home_env : Option String) (trimmed : String) : String :=
  if trimmed = "~" then dirs_or_cwd cur_dir home_env
  else if ("~/".data).isPrefixOf trimmed.data then
    dirs_or_cwd cur_dir home_env ++ "/" ++ String.mk (trimmed.data.drop 2)
  else trimmed

/-- C9: the remote start path `~/projects` expands to the resolved home
concatenated with `/projects`, as the claim states; but the local start
path `~` expands via dirs_or_cwd to the process current working directory
(HOME is only a fallback when the current directory is unavailable):
evaluated at a process whose current directory `/tmp/build` differs from
its home `/home/user`, the code yields the current directory, not the
home directory the claim promises. -/
theorem tilde_expansion_behavior :
    (∀ home : String, remote_expand_tilde home "~/projects" = home ++ "/projects") ∧
    local_expand_start (some "/tmp/build") (some "/home/user") "~" = "/tmp/build" ∧
    "/tmp/build" ≠ "/home/user" := by
  refine ⟨?_, by decide, by decide⟩
  intro home
  unfold remote_expand_tilde
  rw [if_neg (by decide), if_pos (by decide)]
  rw [show String.mk ("~/projects".data.drop 1) = "/projects" by decide]

end Vela
